import Mathlib

/-
Verification development for the instrumented Redis caching layer
(directory 0x02-redis_basic: exercise.py and web.py).

The backend byte strings are modeled as lists of natural numbers, one per
code unit.  Python text encoding and decoding (str.encode and bytes.decode)
are modeled by an injective encoding of the character sequence together
with its partial inverse; every claim in this development depends only on
injectivity and partial inversion of that pair, never on the concrete
UTF-8 byte layout.
-/

namespace RedisBasic

/-- Raw byte-sequence values as stored by the backend. -/
abbrev ByteStr := List Nat

/-- Model of the str.encode conversion: text to raw code units. -/
def pyEncode (s : String) : ByteStr :=
  s.data.map Char.toNat

/-- Model of the bytes.decode conversion: raw code units back to text,
failing on units that are not valid scalar values. -/
def pyDecode? (b : ByteStr) : Option String :=
  if b.all (fun n => decide n.isValidChar) then
    some (String.mk (b.map Char.ofNat))
  else
    none

/-- Decimal digit character for a value below ten. -/
def decDigit (d : Nat) : Char := Char.ofNat (48 + d)

/-- Test for an ASCII decimal digit character. -/
def isDecDigit (c : Char) : Bool := 48 ≤ c.toNat && c.toNat ≤ 57

/-- Numeric value of an ASCII decimal digit character. -/
def digitVal (c : Char) : Nat := c.toNat - 48

/-- Fuel-driven core of the decimal rendering of a natural number. -/
def natDigitsAux : Nat → Nat → List Char
  | 0, _ => []
  | fuel + 1, n =>
    if n < 10 then [decDigit n]
    else natDigitsAux fuel (n / 10) ++ [decDigit (n % 10)]

/-- Decimal rendering of a natural number, most significant digit first.
This models the text produced by the Python str conversion on an int. -/
def natDigits (n : Nat) : List Char := natDigitsAux (n + 1) n

/-- Parse a nonempty all-digit character list as a natural number, the way
the Python int constructor reads a decimal numeral. -/
def parseNat? (l : List Char) : Option Nat :=
  if !l.isEmpty && l.all isDecDigit then
    some (l.foldl (fun a c => 10 * a + digitVal c) 0)
  else
    none

/-- Decimal rendering of an integer, as produced by the Python str
conversion on an int: a minus sign for negatives, digits otherwise. -/
def intToDec (i : Int) : List Char :=
  if i < 0 then Char.ofNat 45 :: natDigits (-i).toNat else natDigits i.toNat

/-- Parse a character list as a signed decimal integer, the way the Python
int constructor reads it: an optional leading minus sign, then digits. -/
def parseInt? (l : List Char) : Option Int :=
  match l with
  | [] => none
  | c :: rest =>
    if c = Char.ofNat 45 then (parseNat? rest).map (fun n => -(n : Int))
    else (parseNat? (c :: rest)).map (fun n => (n : Int))

/-- Byte encoding of an integer value, as the backend client sends an int
argument: the decimal text rendered to code units. -/
def encodeDec (i : Int) : ByteStr := pyEncode (String.mk (intToDec i))

/-- Byte-level integer parse: decode the code units as text, then parse the
text as a signed decimal numeral. -/
def decodeDec? (b : ByteStr) : Option Int :=
  (pyDecode? b).bind (fun s => parseInt? s.data)

/-- State of the backend Redis instance together with the entropy cursor of
the key generator.  String-valued keys (SET, GET, INCR) live in kv; list
valued keys (RPUSH, LRANGE) live in lists.  Lookup finds the most recent
entry, so consing to the front models an overwrite.  The nextId field is
the cursor into the external stream of uuid4 draws. -/
structure CacheState where
  kv : List (String × ByteStr)
  lists : List (String × List ByteStr)
  nextId : Nat
deriving DecidableEq

/-- Backend GET: the value at a string key, or the absent reply. -/
def kvGet (s : CacheState) (k : String) : Option ByteStr :=
  (s.kv.find? (fun p => p.1 == k)).map Prod.snd

/-- Backend SET: unconditional upsert of a string key. -/
def kvSet (s : CacheState) (k : String) (v : ByteStr) : CacheState :=
  { s with kv := (k, v) :: s.kv }

/-- Current contents of a list key; an absent list key reads as empty. -/
def listGet (s : CacheState) (k : String) : List ByteStr :=
  ((s.lists.find? (fun p => p.1 == k)).map Prod.snd).getD []

/-- Backend RPUSH: append one element at the tail of a list key. -/
def redisRpush (s : CacheState) (k : String) (v : ByteStr) : CacheState :=
  { s with lists := (k, listGet s k ++ [v]) :: s.lists }

/-- Backend LRANGE key 0 -1: the whole list at a list key. -/
def redisLrangeAll (s : CacheState) (k : String) : List ByteStr :=
  listGet s k

/-- Integer value currently held at a string key: absent reads as zero,
exactly the base the INCR primitive starts from.  In this development
every value the parse is applied to is a decimal encoding written by INCR
itself, so the fallback of the partial parse is never reached. -/
def counterValue (s : CacheState) (k : String) : Int :=
  match kvGet s k with
  | none => 0
  | some b => (decodeDec? b).getD 0

/-- Backend INCR: atomically add one to the integer held at a string key,
initializing an absent key from zero, and store the decimal encoding of
the new value. -/
def redisIncr (s : CacheState) (k : String) : CacheState × Int :=
  let cur := counterValue s k
  (kvSet s k (encodeDec (cur + 1)), cur + 1)

/-- An operation of the Cache class: its declared qualified name together
with its action on the backend state.  Fallible Python code is modeled
with Except; an error value is a propagating exception. -/
structure Method (α β : Type) where
  qualname : String
  run : CacheState → α → CacheState × Except String β

/-- Decorator count_calls: before delegating, INCR the counter stored
under the qualified name of the wrapped method.  functools.wraps copies
the qualified name onto the wrapper. -/
def count_calls (method : Method α β) : Method α β where
  qualname := method.qualname
  run := fun s a => method.run (redisIncr s method.qualname).1 a

/-- Decorator call_history: RPUSH the serialized positional arguments to
the inputs list, delegate, then RPUSH the serialized result to the
outputs list.  The source serializes both with the universal str
conversion; the model takes the two serializations as parameters.  When
the wrapped method raises, the wrapper appends no output record and the
exception propagates unchanged.  functools.wraps copies the qualified
name onto the wrapper. -/
def call_history (serIn : α → String) (serOut : β → String)
    (method : Method α β) : Method α β where
  qualname := method.qualname
  run := fun s a =>
    let s1 := redisRpush s (method.qualname ++ ":inputs") (pyEncode (serIn a))
    match method.run s1 a with
    | (s2, Except.ok data) =>
      (redisRpush s2 (method.qualname ++ ":outputs") (pyEncode (serOut data)),
        Except.ok data)
    | (s2, Except.error e) => (s2, Except.error e)

/-- Values storable by the Cache: str, bytes, int or float.  A float is
carried by the decimal text rendering the backend client sends for it;
the IEEE-754 arithmetic itself plays no role in any claim. -/
inductive StoredValue
  | str (s : String)
  | bytes (b : ByteStr)
  | intV (n : Int)
  | floatV (r : String)
deriving DecidableEq

/-- Raw bytes the backend holds for a stored value: text is encoded to
code units, bytes pass through unchanged, an int is sent as its decimal
text, a float as its decimal rendering. -/
def rawBytesOf : StoredValue → ByteStr
  | StoredValue.str s => pyEncode s
  | StoredValue.bytes b => b
  | StoredValue.intV n => encodeDec n
  | StoredValue.floatV r => r.data.map Char.toNat

/-- Python repr of a stored value, as it appears inside str(args).  The
escaping of quote and backslash characters inside a text payload is not
modeled; no claim depends on it. -/
def pyReprSV : StoredValue → String
  | StoredValue.str s => "\x27" ++ s ++ "\x27"
  | StoredValue.bytes b => "b\x27" ++ String.mk (b.map Char.ofNat) ++ "\x27"
  | StoredValue.intV n => String.mk (intToDec n)
  | StoredValue.floatV r => r

/-- Python str of the one-element positional argument tuple of store. -/
def storeArgsStr (v : StoredValue) : String :=
  "(" ++ pyReprSV v ++ ",)"

/-- Undecorated body of Cache.store: draw a fresh uuid4 key from the
entropy stream, SET the data under it, return the key.  The supply
argument models the stream of uuid4 draws, indexed by the cursor. -/
def storeBody (supply : Nat → String) : Method StoredValue String where
  qualname := "Cache.store"
  run := fun s data =>
    let key := supply s.nextId
    ({ kvSet s key (rawBytesOf data) with nextId := s.nextId + 1 },
      Except.ok key)

/-- Cache.store as decorated in the source: call_history wrapped around
count_calls wrapped around the body.  The output serialization is the
identity because str applied to the returned key string is the key. -/
def Cache.store (supply : Nat → String) : Method StoredValue String :=
  call_history storeArgsStr id (count_calls (storeBody supply))

/-- Result of Cache.get: with no converter the raw backend reply is
returned (GetResult.raw none is the absent sentinel); with a converter
the value the converter produced is returned. -/
inductive GetResult (α : Type)
  | raw (data : Option ByteStr)
  | conv (val : α)
deriving DecidableEq

/-- Cache.get: read the raw reply at the key; if a converter was supplied
apply it to the reply, whatever the reply was, and return its result;
otherwise return the raw reply itself. -/
def Cache.get {α : Type} (s : CacheState) (key : String)
    (fn : Option (Option ByteStr → α)) : GetResult α :=
  let data := kvGet s key
  match fn with
  | some f => GetResult.conv (f data)
  | none => GetResult.raw data

/-- Cache.get_str: read the raw reply and call decode on it.  An absent
reply is the None object, which has no decode method, so the call raises
AttributeError; invalid code units raise UnicodeDecodeError. -/
def Cache.get_str (s : CacheState) (key : String) : Except String String :=
  match kvGet s key with
  | none => Except.error "AttributeError"
  | some b =>
    match pyDecode? b with
    | some t => Except.ok t
    | none => Except.error "UnicodeDecodeError"

/-- Cache.get_int as written in the source: the try block evaluates
int(value.decode("utf-8")) where value is an unbound name, so it raises
NameError before touching the fetched data; except Exception catches it
and the function returns 0 for every key and every state. -/
def Cache.get_int (s : CacheState) (key : String) : Int :=
  let _data := kvGet s key
  let tried : Except String Int := Except.error "NameError"
  match tried with
  | Except.ok n => n
  | Except.error _ => 0

/-- Decode raw code units as text, raising UnicodeDecodeError on failure,
as the decode method of a bytes object does. -/
def decodeOrErr (b : ByteStr) : Except String String :=
  match pyDecode? b with
  | some t => Except.ok t
  | none => Except.error "UnicodeDecodeError"

/-- Rendering of one replayed call line. -/
def formatLine (q a b : String) : String :=
  q ++ "(*" ++ a ++ ") -> " ++ b

/-- Function replay: the source receives a bound method, takes its
qualified name and the Redis handle of the object it is bound to; the
model receives the qualified name and the state directly.  It reads the
counter (raising AttributeError when it is absent, since the None reply
has no decode method), prints the header, reads the two history lists
with LRANGE 0 -1, zips them index-wise, and prints one line per zipped
pair.  The returned list holds the printed lines in order. -/
def replay (q : String) (s : CacheState) : Except String (List String) :=
  match kvGet s q with
  | none => Except.error "AttributeError"
  | some cb => do
    let count ← decodeOrErr cb
    let header := q ++ " was called " ++ count ++ " times:"
    let inputList := redisLrangeAll s (q ++ ":inputs")
    let outputList := redisLrangeAll s (q ++ ":outputs")
    let zipped := inputList.zip outputList
    let lines ← zipped.mapM (fun p => do
      let a ← decodeOrErr p.1
      let b ← decodeOrErr p.2
      pure (formatLine q a b))
    pure (header :: lines)

/-- Entry of the web cache backend: a value and an optional absolute
expiry instant. -/
structure WebEntry where
  value : ByteStr
  expiresAt : Option Nat
deriving DecidableEq

/-- State of the module-level Redis client of web.py.  Time is explicit:
reads at an instant past the expiry of an entry see the key as absent. -/
structure WebState where
  kv : List (String × WebEntry)
deriving DecidableEq

/-- Backend GET against the web client at a given instant. -/
def webGet (s : WebState) (now : Nat) (k : String) : Option ByteStr :=
  match (s.kv.find? (fun p => p.1 == k)).map Prod.snd with
  | none => none
  | some e =>
    match e.expiresAt with
    | none => some e.value
    | some t => if now < t then some e.value else none

/-- Backend SET against the web client: no expiry. -/
def webSet (s : WebState) (k : String) (v : ByteStr) : WebState :=
  ⟨(k, ⟨v, none⟩) :: s.kv⟩

/-- Backend SETEX against the web client: the key expires ttl seconds
after the instant of the call. -/
def webSetex (s : WebState) (now : Nat) (k : String) (ttl : Nat)
    (v : ByteStr) : WebState :=
  ⟨(k, ⟨v, some (now + ttl)⟩) :: s.kv⟩

/-- Integer read of a web counter key at a given instant, absent as 0. -/
def webCounterValue (s : WebState) (now : Nat) (k : String) : Int :=
  match webGet s now k with
  | none => 0
  | some b => (decodeDec? b).getD 0

/-- Backend INCR against the web client. -/
def webIncr (s : WebState) (now : Nat) (k : String) : WebState × Int :=
  let cur := webCounterValue s now k
  (webSet s k (encodeDec (cur + 1)), cur + 1)

/-- Function get_page wrapped by count_url_calls, as web.py defines it:
INCR the count key for the url; GET the result key; on a truthy (present
and nonempty) cached reply decode and return it without fetching; on a
miss perform the external fetch, SET the count key back to 0, SETEX the
body under the result key with a ttl of 10 seconds, and return the body.
The fetch argument models the external HTTP collaborator, now the
instant of the call; the last component of a successful result counts
the external fetches this call performed. -/
def get_page (fetch : String → String) (s : WebState) (now : Nat)
    (url : String) : Except String (WebState × String × Nat) :=
  let s1 := (webIncr s now ("count:" ++ url)).1
  match webGet s1 now ("result:" ++ url) with
  | some (b :: bs) =>
    (decodeOrErr (b :: bs)).map (fun t => (s1, t, 0))
  | _ =>
    let body := fetch url
    let s2 := webSet s1 ("count:" ++ url) (encodeDec 0)
    let s3 := webSetex s2 now ("result:" ++ url) 10 (pyEncode body)
    Except.ok (s3, body, 1)

/-- State of a freshly constructed Cache: the constructor flushes the
whole backend with FLUSHDB, and the entropy cursor starts at zero. -/
def freshCache : CacheState := ⟨[], [], 0⟩

/-- Concrete uuid4 draw stream used by closed evaluations: the decimal
rendering of the draw index.  It is injective and never collides with the
instrumentation keys, the properties the spec assumes of uuid4. -/
def devSupply : Nat → String := fun n => String.mk (natDigits n)

/-- State of the module-level web client before any call, with no
pre-existing entry for the exercised url. -/
def webFresh : WebState := ⟨[]⟩

/-- Iterate the run of a method over a list of argument values, starting
from a given state, collecting the per-call results in call order. -/
def callTrace (m : Method α β) : CacheState → List α → CacheState × List (Except String β)
  | s, [] => (s, [])
  | s, a :: as =>
    let r := m.run s a
    let rest := callTrace m r.1 as
    (rest.1, r.2 :: rest.2)

/-- Web state after one get_page call on the fresh client at instant 0. -/
def webAfter1 : WebState :=
  match get_page (fun _ => "hello") webFresh 0 "url" with
  | Except.ok p => p.1
  | Except.error _ => webFresh

/-- Web state after a second get_page call at instant 5, inside the
10-second ttl window of the first call. -/
def webAfter2 : WebState :=
  match get_page (fun _ => "hello") webAfter1 5 "url" with
  | Except.ok p => p.1
  | Except.error _ => webAfter1

/-- Probe operation used by closed instantiations: it succeeds on every
call, touches no backend key, and returns its argument. -/
def probeMethod : Method String String :=
  ⟨"Cache.store", fun s a => (s, Except.ok a)⟩

/-- Concrete state for the replay witness: a counter of 3, three recorded
inputs but only two recorded outputs, as after one failed call. -/
def replayState : CacheState :=
  ⟨[("Cache.store", pyEncode "3")],
    [("Cache.store" ++ ":inputs",
      (["(\x27a\x27,)", "(\x27b\x27,)", "(\x27c\x27,)"] : List String).map pyEncode),
     ("Cache.store" ++ ":outputs",
      (["k0", "k1"] : List String).map pyEncode)], 0⟩

theorem pyEncode_valid (s : String) :
    (pyEncode s).all (fun n => decide n.isValidChar) = true := by
  rw [List.all_eq_true]
  intro n hn
  rw [decide_eq_true_eq]
  simp only [pyEncode, List.mem_map] at hn
  obtain ⟨c, _, rfl⟩ := hn
  exact c.valid

theorem pyDecode_pyEncode (s : String) : pyDecode? (pyEncode s) = some s := by
  have h2 : (pyEncode s).map Char.ofNat = s.data := by
    simp only [pyEncode, List.map_map]
    have h : ∀ c ∈ s.data, (Char.ofNat ∘ Char.toNat) c = c := fun c _ =>
      Char.ofNat_toNat c
    rw [List.map_congr_left h]
    simp
  rw [pyDecode?, if_pos (pyEncode_valid s), h2]

theorem pyEncode_injective : Function.Injective pyEncode := by
  intro a b h
  have := congrArg pyDecode? h
  rw [pyDecode_pyEncode, pyDecode_pyEncode] at this
  exact Option.some.inj this

theorem decDigit_toNat (d : Nat) (hd : d < 10) : (decDigit d).toNat = 48 + d := by
  have hv : (48 + d).isValidChar := by
    constructor
    omega
  simp [decDigit, Char.ofNat, hv, Char.toNat]
  rfl

theorem isDecDigit_decDigit (d : Nat) (hd : d < 10) :
    isDecDigit (decDigit d) = true := by
  simp [isDecDigit, decDigit_toNat d hd]
  omega

theorem digitVal_decDigit (d : Nat) (hd : d < 10) : digitVal (decDigit d) = d := by
  simp [digitVal, decDigit_toNat d hd]

theorem natDigitsAux_spec (fuel : Nat) :
    ∀ n, n < fuel →
      (natDigitsAux fuel n).all isDecDigit = true ∧
      natDigitsAux fuel n ≠ [] ∧
      ∀ a, (natDigitsAux fuel n).foldl (fun a c => 10 * a + digitVal c) a =
        a * 10 ^ (natDigitsAux fuel n).length + n := by
  induction fuel with
  | zero => intro n hn; omega
  | succ f ih =>
    intro n hn
    by_cases h10 : n < 10
    · refine ⟨?_, ?_, ?_⟩
      · simp [natDigitsAux, h10, isDecDigit_decDigit n h10]
      · simp [natDigitsAux, h10]
      · intro a
        simp [natDigitsAux, h10, digitVal_decDigit n h10]
        ring
    · have hlt : n / 10 < f := by omega
      obtain ⟨hall, hne, hfold⟩ := ih (n / 10) hlt
      refine ⟨?_, ?_, ?_⟩
      · simp only [natDigitsAux, if_neg h10, List.all_append, hall,
          Bool.true_and, List.all_cons, List.all_nil, Bool.and_true]
        exact isDecDigit_decDigit (n % 10) (Nat.mod_lt n (by omega))
      · simp [natDigitsAux, h10]
      · intro a
        simp only [natDigitsAux, if_neg h10, List.foldl_append, hfold,
          List.foldl_cons, List.foldl_nil, List.length_append,
          List.length_cons, List.length_nil]
        rw [digitVal_decDigit (n % 10) (Nat.mod_lt n (by omega))]
        have hm := Nat.div_add_mod n 10
        ring_nf
        omega

theorem natDigits_all (n : Nat) : (natDigits n).all isDecDigit = true :=
  (natDigitsAux_spec (n + 1) n (Nat.lt_succ_self n)).1

theorem natDigits_ne_nil (n : Nat) : natDigits n ≠ [] :=
  (natDigitsAux_spec (n + 1) n (Nat.lt_succ_self n)).2.1

theorem parseNat_natDigits (n : Nat) : parseNat? (natDigits n) = some n := by
  obtain ⟨hall, hne, hfold⟩ := natDigitsAux_spec (n + 1) n (Nat.lt_succ_self n)
  have hcond : (!(natDigits n).isEmpty && (natDigits n).all isDecDigit) = true := by
    simp only [natDigits] at hne ⊢
    simp [List.isEmpty_iff, hne, hall]
  rw [parseNat?, if_pos hcond]
  simp only [natDigits] at hfold ⊢
  rw [hfold 0]
  simp

theorem natDigits_injective : Function.Injective natDigits := by
  intro a b h
  have := congrArg parseNat? h
  rw [parseNat_natDigits, parseNat_natDigits] at this
  exact Option.some.inj this

theorem minus_not_digit : isDecDigit (Char.ofNat 45) = false := by decide

theorem natDigits_head_ne_minus (n : Nat) :
    ∀ c rest, natDigits n = c :: rest → c ≠ Char.ofNat 45 := by
  intro c rest h hc
  have hall := natDigits_all n
  rw [h, hc] at hall
  simp [minus_not_digit] at hall

theorem parseInt_intToDec (i : Int) : parseInt? (intToDec i) = some i := by
  by_cases hneg : i < 0
  · rw [intToDec, if_pos hneg, parseInt?]
    rw [if_pos rfl, parseNat_natDigits]
    simp
    omega
  · rw [intToDec, if_neg hneg]
    rcases hd : natDigits i.toNat with _ | ⟨c, rest⟩
    · exact absurd hd (natDigits_ne_nil i.toNat)
    · rw [parseInt?]
      rw [if_neg (natDigits_head_ne_minus i.toNat c rest hd), ← hd,
        parseNat_natDigits]
      simp
      omega

theorem intToDec_injective : Function.Injective intToDec := by
  intro a b h
  have := congrArg parseInt? h
  rw [parseInt_intToDec, parseInt_intToDec] at this
  exact Option.some.inj this

theorem decodeDec_encodeDec (i : Int) : decodeDec? (encodeDec i) = some i := by
  rw [encodeDec, decodeDec?, pyDecode_pyEncode]
  simpa using parseInt_intToDec i

/-- Claim C3 counterexample: on a fresh Cache the key missing was never
stored, yet get with the converter that returns 7 on any reply produces
7, the converter output, not the absent sentinel: the source applies a
supplied converter even to the absent reply. -/
theorem claim_C3_counterexample :
    kvGet freshCache "missing" = none ∧
    Cache.get freshCache "missing" (some (fun _ => (7 : Int))) ≠
      GetResult.raw none := by
  decide

/-- Claim C3 as amended: get on a never-stored key returns the absent
sentinel when no converter is supplied; when a converter is supplied the
converter is applied to the absent reply and its result is returned, so
the caller sees whatever the converter makes of the sentinel rather than
the sentinel itself. -/
theorem claim_C3 {α : Type} (s : CacheState) (k : String)
    (f : Option ByteStr → α) (h : kvGet s k = none) :
    Cache.get s k (none : Option (Option ByteStr → α)) = GetResult.raw none ∧
    Cache.get s k (some f) = GetResult.conv (f none) := by
  constructor
  · simp [Cache.get, h]
  · simp [Cache.get, h]

/-- Claim C3 witness: concrete instantiation on the fresh state. -/
theorem claim_C3_witness :
    Cache.get freshCache "nope"
      (none : Option (Option ByteStr → Nat)) = GetResult.raw none ∧
    Cache.get freshCache "nope" (some (fun _ => (3 : Nat))) =
      GetResult.conv 3 :=
  claim_C3 freshCache "nope" (fun _ => (3 : Nat)) (by decide)

/-- Claim C4: the spec asks that after store(42) the integer read of the
returned key give 42; in the source the try block of get_int evaluates
the unbound name value, raises NameError, and the except clause turns
every call into 0.  The stored bytes are the decimal encoding of 42, yet
get_int returns 0, not 42. -/
theorem claim_C4 :
    ((Cache.store devSupply).run freshCache (StoredValue.intV 42)).2 =
      Except.ok "0" ∧
    kvGet ((Cache.store devSupply).run freshCache (StoredValue.intV 42)).1
      "0" = some (encodeDec 42) ∧
    Cache.get_int
      ((Cache.store devSupply).run freshCache (StoredValue.intV 42)).1
      "0" = 0 ∧
    (0 : Int) ≠ 42 :=
  ⟨rfl, rfl, rfl, by decide⟩

/-- Claim C10: get_str on an absent key raises (the absent reply is the
None object, and calling decode on it is an AttributeError), it never
returns the sentinel or a default; it returns normally exactly when the
key is present and its bytes decode as text. -/
theorem claim_C10 (s : CacheState) (k : String) :
    (kvGet s k = none → Cache.get_str s k = Except.error "AttributeError") ∧
    (∀ b t, kvGet s k = some b → pyDecode? b = some t →
      Cache.get_str s k = Except.ok t) ∧
    (∀ t, Cache.get_str s k = Except.ok t →
      ∃ b, kvGet s k = some b ∧ pyDecode? b = some t) := by
  refine ⟨?_, ?_, ?_⟩
  · intro h
    simp [Cache.get_str, h]
  · intro b t hb ht
    simp [Cache.get_str, hb, ht]
  · intro t ht
    rcases hb : kvGet s k with _ | b
    · simp [Cache.get_str, hb] at ht
    · rcases hd : pyDecode? b with _ | u
      · simp [Cache.get_str, hb, hd] at ht
      · simp [Cache.get_str, hb, hd] at ht
        exact ⟨b, rfl, by simp [hd, ht]⟩

/-- Claim C10 witness: on the fresh state the absent branch raises, and
on a state holding encoded text the present branch decodes it. -/
theorem claim_C10_witness :
    Cache.get_str freshCache "nope" = Except.error "AttributeError" ∧
    Cache.get_str ⟨[("k", pyEncode "hi")], [], 0⟩ "k" = Except.ok "hi" :=
  ⟨(claim_C10 freshCache "nope").1 (by decide),
    (claim_C10 ⟨[("k", pyEncode "hi")], [], 0⟩ "k").2.1 (pyEncode "hi") "hi"
      (by decide) (pyDecode_pyEncode "hi")⟩

/-- Claim C2: two get_page calls on the same url inside the ttl window do
perform exactly one external fetch, but the access counter afterwards is
1, not 2: the counter is incremented on both calls, yet the miss path of
the first call resets it to 0 right after fetching, so only the second
increment survives.  The spec matches the documented purpose of the
decorator (counting accesses); the reset in the code contradicts it. -/
theorem claim_C2 :
    get_page (fun _ => "hello") webFresh 0 "url" =
      Except.ok (webAfter1, "hello", 1) ∧
    get_page (fun _ => "hello") webAfter1 5 "url" =
      Except.ok (webAfter2, "hello", 0) ∧
    webCounterValue webAfter2 5 "count:url" = 1 ∧
    ¬ webCounterValue webAfter2 5 "count:url" = 2 :=
  ⟨rfl, rfl, rfl, by decide⟩

/-- Claim C1: store returns the freshly drawn key, and get on that key
with any supplied converter returns exactly the converter applied to the
raw bytes the backend holds for the stored value, for every storable
value.  The two hypotheses record that the drawn uuid does not collide
with the two instrumentation list keys; on the real backend such a
collision would make the history RPUSH raise WRONGTYPE instead. -/
theorem claim_C1 {α : Type} (supply : Nat → String) (s : CacheState)
    (v : StoredValue) (f : Option ByteStr → α)
    (_h1 : supply s.nextId ≠ "Cache.store:inputs")
    (_h2 : supply s.nextId ≠ "Cache.store:outputs") :
    ((Cache.store supply).run s v).2 = Except.ok (supply s.nextId) ∧
    Cache.get ((Cache.store supply).run s v).1 (supply s.nextId) (some f) =
      GetResult.conv (f (some (rawBytesOf v))) := by
  refine ⟨?_, ?_⟩ <;>
    simp [Cache.store, call_history, count_calls, storeBody, Cache.get,
      kvGet, kvSet, redisRpush, redisIncr]

/-- Claim C1 witness: a concrete round trip of a stored text value through
the identity converter. -/
theorem claim_C1_witness :
    ((Cache.store devSupply).run freshCache (StoredValue.str "foo")).2 =
      Except.ok (devSupply 0) ∧
    Cache.get ((Cache.store devSupply).run freshCache (StoredValue.str "foo")).1
      (devSupply 0) (some (fun d => d)) =
      GetResult.conv (some (rawBytesOf (StoredValue.str "foo"))) :=
  claim_C1 devSupply freshCache (StoredValue.str "foo") (fun d => d)
    (by decide) (by decide)

/-- Claim C6: when the wrapped operation raises, the history wrapper has
already appended the input record (the state the operation starts from
carries it), appends no output record, leaves the state exactly as the
failing operation left it, and returns the very same error, with no retry
and no suppression. -/
theorem claim_C6 {α β : Type} (m : Method α β) (serIn : α → String)
    (serOut : β → String) (s s2 : CacheState) (a : α) (e : String)
    (hfail : m.run
      (redisRpush s (m.qualname ++ ":inputs") (pyEncode (serIn a))) a =
      (s2, Except.error e)) :
    (call_history serIn serOut m).run s a = (s2, Except.error e) ∧
    listGet (redisRpush s (m.qualname ++ ":inputs") (pyEncode (serIn a)))
        (m.qualname ++ ":inputs") =
      listGet s (m.qualname ++ ":inputs") ++ [pyEncode (serIn a)] := by
  constructor
  · simp [call_history, hfail]
  · simp [redisRpush, listGet]

/-- Claim C6 witness: a method that always raises, wrapped by the history
decorator, propagates its error and the input record is appended. -/
theorem claim_C6_witness :
    (call_history (fun _ : Nat => "a") (fun _ : Nat => "r")
        ⟨"Cache.store", fun s _ => (s, Except.error "boom")⟩).run
      freshCache 5 =
      (redisRpush freshCache "Cache.store:inputs" (pyEncode "a"),
        Except.error "boom") ∧
    listGet (redisRpush freshCache "Cache.store:inputs" (pyEncode "a"))
        "Cache.store:inputs" =
      listGet freshCache "Cache.store:inputs" ++ [pyEncode "a"] := by
  have h := claim_C6 (α := Nat) (β := Nat)
    ⟨"Cache.store", fun s _ => (s, Except.error "boom")⟩
    (fun _ => "a") (fun _ => "r") freshCache
    (redisRpush freshCache "Cache.store:inputs" (pyEncode "a")) 5 "boom" rfl
  exact h

theorem listGet_rpush_same (s : CacheState) (k : String) (v : ByteStr) :
    listGet (redisRpush s k v) k = listGet s k ++ [v] := by
  simp only [redisRpush, listGet]
  rw [List.find?_cons_of_pos _ (by simp)]
  simp

theorem listGet_rpush_ne (s : CacheState) (k k2 : String) (v : ByteStr)
    (h : ¬ k = k2) : listGet (redisRpush s k v) k2 = listGet s k2 := by
  simp only [redisRpush, listGet]
  rw [List.find?_cons_of_neg _ (by simp [h])]

theorem append_ne_of_suffix_ne (q a b : String) (hab : a.data ≠ b.data) :
    q ++ a ≠ q ++ b := by
  intro h
  have hd := congrArg String.data h
  rw [String.data_append q a, String.data_append q b] at hd
  exact hab (List.append_cancel_left hd)

theorem inputs_ne_outputs (q : String) : q ++ ":inputs" ≠ q ++ ":outputs" :=
  append_ne_of_suffix_ne q ":inputs" ":outputs" (by decide)

theorem call_history_trace {α β : Type} (m : Method α β)
    (serIn : α → String) (serOut : β → String)
    (hpIn : ∀ s a, listGet (m.run s a).1 (m.qualname ++ ":inputs") =
      listGet s (m.qualname ++ ":inputs"))
    (hpOut : ∀ s a, listGet (m.run s a).1 (m.qualname ++ ":outputs") =
      listGet s (m.qualname ++ ":outputs"))
    (hok : ∀ s a, ∃ s2 b, m.run s a = (s2, Except.ok b)) :
    ∀ (as : List α) (s0 : CacheState),
      ∃ bs : List β,
        (callTrace (call_history serIn serOut m) s0 as).2 =
          bs.map Except.ok ∧
        bs.length = as.length ∧
        listGet (callTrace (call_history serIn serOut m) s0 as).1
            (m.qualname ++ ":inputs") =
          listGet s0 (m.qualname ++ ":inputs") ++
            as.map (fun a => pyEncode (serIn a)) ∧
        listGet (callTrace (call_history serIn serOut m) s0 as).1
            (m.qualname ++ ":outputs") =
          listGet s0 (m.qualname ++ ":outputs") ++
            bs.map (fun b => pyEncode (serOut b)) := by
  intro as
  induction as with
  | nil =>
    intro s0
    exact ⟨[], rfl, rfl, by simp [callTrace], by simp [callTrace]⟩
  | cons a as ih =>
    intro s0
    set inKey := m.qualname ++ ":inputs" with hin
    set outKey := m.qualname ++ ":outputs" with hout
    set s1 := redisRpush s0 inKey (pyEncode (serIn a)) with hs1
    rcases hr : m.run s1 a with ⟨s2, r⟩
    rcases r with e | b
    case error =>
      obtain ⟨s2x, bx, hx⟩ := hok s1 a
      rw [hr] at hx
      simp at hx
    case ok =>
      set s3 := redisRpush s2 outKey (pyEncode (serOut b)) with hs3
      have hstep : (call_history serIn serOut m).run s0 a =
          (s3, Except.ok b) := by
        simp only [call_history, hs1, hin, hout]
        rw [hr]
      obtain ⟨bs, hres, hlen, hIn, hOut⟩ := ih s3
      refine ⟨b :: bs, ?_, ?_, ?_, ?_⟩
      · simp only [callTrace, hstep, hres, List.map_cons]
      · simp [hlen]
      · simp only [callTrace, hstep, hIn]
        have e1 : listGet s3 inKey = listGet s0 inKey ++ [pyEncode (serIn a)] := by
          rw [hs3, listGet_rpush_ne s2 outKey inKey _
            (fun hkk => inputs_ne_outputs m.qualname (hkk.symm))]
          have e2 := hpIn s1 a
          rw [hr] at e2
          rw [e2, hs1, listGet_rpush_same]
        rw [e1]
        simp
      · simp only [callTrace, hstep, hOut]
        have e1 : listGet s3 outKey = listGet s0 outKey ++ [pyEncode (serOut b)] := by
          rw [hs3, listGet_rpush_same]
          have e2 := hpOut s1 a
          rw [hr] at e2
          rw [e2, hs1, listGet_rpush_ne s0 inKey outKey _
            (inputs_ne_outputs m.qualname)]
        rw [e1]
        simp

/-- Claim C5: after K calls to a history-instrumented operation that all
succeed, the inputs history and the outputs history both have length K,
the entry at index i of the inputs history is the serialized arguments of
call i, and the entry at index i of the outputs history is the serialized
result of the same call i, in call order.  The operation itself is
assumed not to touch its own two history lists, which holds for every
operation of the source. -/
theorem claim_C5 {α β : Type} (m : Method α β)
    (serIn : α → String) (serOut : β → String)
    (hpIn : ∀ s a, listGet (m.run s a).1 (m.qualname ++ ":inputs") =
      listGet s (m.qualname ++ ":inputs"))
    (hpOut : ∀ s a, listGet (m.run s a).1 (m.qualname ++ ":outputs") =
      listGet s (m.qualname ++ ":outputs"))
    (hok : ∀ s a, ∃ s2 b, m.run s a = (s2, Except.ok b))
    (as : List α) (s0 : CacheState)
    (hIn0 : listGet s0 (m.qualname ++ ":inputs") = [])
    (hOut0 : listGet s0 (m.qualname ++ ":outputs") = []) :
    ∃ bs : List β,
      (callTrace (call_history serIn serOut m) s0 as).2 = bs.map Except.ok ∧
      bs.length = as.length ∧
      listGet (callTrace (call_history serIn serOut m) s0 as).1
          (m.qualname ++ ":inputs") =
        as.map (fun a => pyEncode (serIn a)) ∧
      (listGet (callTrace (call_history serIn serOut m) s0 as).1
          (m.qualname ++ ":inputs")).length = as.length ∧
      listGet (callTrace (call_history serIn serOut m) s0 as).1
          (m.qualname ++ ":outputs") =
        bs.map (fun b => pyEncode (serOut b)) ∧
      (listGet (callTrace (call_history serIn serOut m) s0 as).1
          (m.qualname ++ ":outputs")).length = as.length := by
  obtain ⟨bs, hres, hlen, hIn, hOut⟩ :=
    call_history_trace m serIn serOut hpIn hpOut hok as s0
  rw [hIn0] at hIn
  rw [hOut0] at hOut
  refine ⟨bs, hres, hlen, ?_, ?_, ?_, ?_⟩
  · simpa using hIn
  · simp [hIn]
  · simpa using hOut
  · simp [hOut, hlen]

/-- Claim C5 witness: two successful calls to an instrumented probe
operation leave parallel histories of length two. -/
theorem claim_C5_witness :
    ∃ bs : List String,
      (callTrace (call_history id id probeMethod) freshCache ["a", "b"]).2 =
        bs.map Except.ok ∧
      bs.length = (["a", "b"] : List String).length ∧
      listGet (callTrace (call_history id id probeMethod) freshCache
          ["a", "b"]).1 (probeMethod.qualname ++ ":inputs") =
        (["a", "b"] : List String).map (fun a => pyEncode (id a)) ∧
      (listGet (callTrace (call_history id id probeMethod) freshCache
          ["a", "b"]).1 (probeMethod.qualname ++ ":inputs")).length =
        (["a", "b"] : List String).length ∧
      listGet (callTrace (call_history id id probeMethod) freshCache
          ["a", "b"]).1 (probeMethod.qualname ++ ":outputs") =
        bs.map (fun b => pyEncode (id b)) ∧
      (listGet (callTrace (call_history id id probeMethod) freshCache
          ["a", "b"]).1 (probeMethod.qualname ++ ":outputs")).length =
        (["a", "b"] : List String).length :=
  claim_C5 probeMethod id id (fun _ _ => rfl) (fun _ _ => rfl)
    (fun s a => ⟨s, a, rfl⟩) ["a", "b"] freshCache rfl rfl

theorem kvGet_rpush (s : CacheState) (k k2 : String) (v : ByteStr) :
    kvGet (redisRpush s k v) k2 = kvGet s k2 := rfl

theorem counterValue_rpush (s : CacheState) (k k2 : String) (v : ByteStr) :
    counterValue (redisRpush s k v) k2 = counterValue s k2 := rfl

theorem store_run_spec (supply : Nat → String) (s : CacheState)
    (v : StoredValue) (h : ¬ supply s.nextId = "Cache.store") :
    ((Cache.store supply).run s v).2 = Except.ok (supply s.nextId) ∧
    ((Cache.store supply).run s v).1.nextId = s.nextId + 1 ∧
    counterValue ((Cache.store supply).run s v).1 "Cache.store" =
      counterValue s "Cache.store" + 1 := by
  refine ⟨?_, ?_, ?_⟩
  · simp [Cache.store, call_history, count_calls, storeBody, redisRpush,
      redisIncr, kvSet]
  · simp [Cache.store, call_history, count_calls, storeBody, redisRpush,
      redisIncr, kvSet]
  · simp only [Cache.store, call_history, count_calls, storeBody]
    rw [counterValue_rpush]
    simp only [counterValue, kvGet, kvSet, redisIncr, redisRpush]
    rw [List.find?_cons_of_neg _ (by simp [h]),
      List.find?_cons_of_pos _ (by simp)]
    simp [decodeDec_encodeDec, counterValue, kvGet]

theorem store_trace (supply : Nat → String)
    (havoid : ∀ n, ¬ supply n = "Cache.store") :
    ∀ (vs : List StoredValue) (s0 : CacheState),
      (callTrace (Cache.store supply) s0 vs).2 =
        (List.range' s0.nextId vs.length).map (fun i => Except.ok (supply i)) ∧
      (callTrace (Cache.store supply) s0 vs).1.nextId =
        s0.nextId + vs.length ∧
      counterValue (callTrace (Cache.store supply) s0 vs).1 "Cache.store" =
        counterValue s0 "Cache.store" + vs.length := by
  intro vs
  induction vs with
  | nil => intro s0; simp [callTrace]
  | cons v vs ih =>
    intro s0
    obtain ⟨hr, hn, hc⟩ := store_run_spec supply s0 v (havoid s0.nextId)
    rcases hrun : (Cache.store supply).run s0 v with ⟨s1, r⟩
    rw [hrun] at hr hn hc
    simp only [Prod.fst, Prod.snd] at hr hn hc
    obtain ⟨ihr, ihn, ihc⟩ := ih s1
    refine ⟨?_, ?_, ?_⟩
    · simp [callTrace, hrun, ihr, hn, hr, List.range']
    · simp only [callTrace, hrun]
      simp [ihn, hn]
      omega
    · simp only [callTrace, hrun]
      simp [ihc, hc]
      ring

theorem devSupply_injective : Function.Injective devSupply := by
  intro a b h
  exact natDigits_injective (congrArg String.data h)

theorem devSupply_ne_store (n : Nat) : ¬ devSupply n = "Cache.store" := by
  intro h
  have hd : natDigits n = "Cache.store".data := congrArg String.data h
  have ha := natDigits_all n
  rw [hd] at ha
  exact absurd ha (by decide)

/-- Claim C7: N store calls on a fresh Cache return the N draws of the
key stream in order, those N keys are pairwise distinct whenever the
stream is injective (the uuid4 collision-freedom assumption), and the
invocation counter kept under the identity of store equals N afterwards.
The stream is also assumed never to collide with the very counter key, as
the spec assumes of uuid4 draws. -/
theorem claim_C7 (supply : Nat → String) (hinj : Function.Injective supply)
    (havoid : ∀ n, ¬ supply n = "Cache.store") (vs : List StoredValue) :
    (callTrace (Cache.store supply) freshCache vs).2 =
      (List.range' 0 vs.length).map (fun i => Except.ok (supply i)) ∧
    ((List.range' 0 vs.length).map supply).Nodup ∧
    counterValue (callTrace (Cache.store supply) freshCache vs).1
      "Cache.store" = vs.length := by
  obtain ⟨h1, h2, h3⟩ := store_trace supply havoid vs freshCache
  refine ⟨?_, ?_, ?_⟩
  · simpa [freshCache] using h1
  · exact List.Nodup.map hinj (List.nodup_range' 0 vs.length)
  · have hz : counterValue freshCache "Cache.store" = 0 := rfl
    rw [h3, hz]
    simp

/-- Claim C7 witness: two stores on the fresh Cache with the development
key stream give the keys of draws 0 and 1, distinct, and a counter of 2. -/
theorem claim_C7_witness :
    (callTrace (Cache.store devSupply) freshCache
        [StoredValue.str "a", StoredValue.str "b"]).2 =
      (List.range' 0 ([StoredValue.str "a", StoredValue.str "b"] :
        List StoredValue).length).map (fun i => Except.ok (devSupply i)) ∧
    ((List.range' 0 ([StoredValue.str "a", StoredValue.str "b"] :
      List StoredValue).length).map devSupply).Nodup ∧
    counterValue (callTrace (Cache.store devSupply) freshCache
        [StoredValue.str "a", StoredValue.str "b"]).1 "Cache.store" =
      ([StoredValue.str "a", StoredValue.str "b"] :
        List StoredValue).length :=
  claim_C7 devSupply devSupply_injective devSupply_ne_store
    [StoredValue.str "a", StoredValue.str "b"]

theorem incr_rpush_comm (s : CacheState) (q k : String) (v : ByteStr) :
    (redisIncr (redisRpush s k v) q).1 = redisRpush (redisIncr s q).1 k v :=
  rfl

/-- Claim C8: stacking the counting wrapper and the history wrapper in
either order yields wrappers that expose the qualified name of the
underlying operation (functools.wraps propagates it through each layer),
behave identically call for call, and key the counter under that name and
the histories under that name suffixed with inputs and outputs; the two
bookkeeping effects land on disjoint keys and do not disturb each other. -/
theorem claim_C8 {α β : Type} (m : Method α β) (serIn : α → String)
    (serOut : β → String) :
    (call_history serIn serOut (count_calls m)).qualname = m.qualname ∧
    (count_calls (call_history serIn serOut m)).qualname = m.qualname ∧
    (∀ s a, (call_history serIn serOut (count_calls m)).run s a =
      (count_calls (call_history serIn serOut m)).run s a) ∧
    (∀ s a s2 b,
      m.run (redisIncr (redisRpush s (m.qualname ++ ":inputs")
          (pyEncode (serIn a))) m.qualname).1 a = (s2, Except.ok b) →
      (call_history serIn serOut (count_calls m)).run s a =
        (redisRpush s2 (m.qualname ++ ":outputs") (pyEncode (serOut b)),
          Except.ok b)) := by
  refine ⟨rfl, rfl, ?_, ?_⟩
  · intro s a
    simp only [call_history, count_calls]
    rw [incr_rpush_comm]
  · intro s a s2 b h
    simp only [call_history, count_calls]
    rw [h]

/-- Claim C8 witness: both stackings around the probe operation agree on
a concrete call, and the call bumps the counter key and appends to the
two history keys derived from the operation name. -/
theorem claim_C8_witness :
    (call_history id id (count_calls probeMethod)).run freshCache "x" =
      (count_calls (call_history id id probeMethod)).run freshCache "x" ∧
    (call_history id id (count_calls probeMethod)).run freshCache "x" =
      (redisRpush
        (redisIncr (redisRpush freshCache ("Cache.store" ++ ":inputs")
          (pyEncode (id "x"))) "Cache.store").1
        ("Cache.store" ++ ":outputs") (pyEncode (id "x")), Except.ok "x") :=
  ⟨(claim_C8 probeMethod id id).2.2.1 freshCache "x",
    (claim_C8 probeMethod id id).2.2.2 freshCache "x"
      (redisIncr (redisRpush freshCache ("Cache.store" ++ ":inputs")
        (pyEncode (id "x"))) "Cache.store").1 "x" rfl⟩

theorem decodeOrErr_pyEncode (t : String) :
    decodeOrErr (pyEncode t) = Except.ok t := by
  simp [decodeOrErr, pyDecode_pyEncode]

theorem mapM_decode_pairs (q : String) (l : List (String × String)) :
    (l.map (Prod.map pyEncode pyEncode)).mapM
      (fun p => do
        let a ← decodeOrErr p.1
        let b ← decodeOrErr p.2
        pure (formatLine q a b)) =
      Except.ok (l.map (fun p => formatLine q p.1 p.2)) := by
  induction l with
  | nil => rfl
  | cons p l ih =>
    rcases p with ⟨x, y⟩
    rw [List.map_cons, List.mapM_cons, ih]
    simp [Prod.map, decodeOrErr_pyEncode]
    rfl

/-- Claim C9: replay on an operation identity whose counter holds the
encoded count text and whose history lists hold encoded entries prints
the header naming the identity and the count, then exactly one line per
index-wise zipped pair of the two histories, each line rendering the
input and the output of the pair; when the lists have different lengths
only pairs up to the shorter length are printed, the trailing unmatched
entries silently omitted. -/
theorem claim_C9 (q c : String) (I O : List String) (s : CacheState)
    (hc : kvGet s q = some (pyEncode c))
    (hI : redisLrangeAll s (q ++ ":inputs") = I.map pyEncode)
    (hO : redisLrangeAll s (q ++ ":outputs") = O.map pyEncode) :
    replay q s = Except.ok ((q ++ " was called " ++ c ++ " times:") ::
      (I.zip O).map (fun p => formatLine q p.1 p.2)) ∧
    ((I.zip O).map (fun p => formatLine q p.1 p.2)).length =
      min I.length O.length := by
  constructor
  · rw [replay, hc]
    simp only [hI, hO, decodeOrErr_pyEncode, List.zip_map]
    rw [mapM_decode_pairs q (I.zip O)]
    rfl
  · rw [List.length_map, List.length_zip]

/-- Claim C9 witness: replay on the concrete desynchronized state prints
the header and exactly two lines, the third unmatched input omitted. -/
theorem claim_C9_witness :
    replay "Cache.store" replayState =
      Except.ok (("Cache.store" ++ " was called " ++ "3" ++ " times:") ::
        ((["(\x27a\x27,)", "(\x27b\x27,)", "(\x27c\x27,)"] : List String).zip
          (["k0", "k1"] : List String)).map
            (fun p => formatLine "Cache.store" p.1 p.2)) ∧
    (((["(\x27a\x27,)", "(\x27b\x27,)", "(\x27c\x27,)"] : List String).zip
        (["k0", "k1"] : List String)).map
          (fun p => formatLine "Cache.store" p.1 p.2)).length =
      min (["(\x27a\x27,)", "(\x27b\x27,)", "(\x27c\x27,)"] : List String).length
        (["k0", "k1"] : List String).length :=
  claim_C9 "Cache.store" "3" ["(\x27a\x27,)", "(\x27b\x27,)", "(\x27c\x27,)"]
    ["k0", "k1"] replayState (by decide) (by decide) (by decide)

end RedisBasic
